import Mathlib

/-!
Shallow embedding of the vesting-calculator repository
(`models.go`, `vesting_service.go`) and verification of its specification.

Modelling conventions:
* Go `time.Time` values (always midnight UTC in this code base) are embedded
  as calendar triples `Date` (year, month, day, as integers).
* Go `time.Time.AddDate(0, n, 0)` normalizes the month into `1..12` with
  floor-division carry into the year and lets an overflowing day-of-month
  roll into the following month (e.g. Jan 31 + 1 month = Mar 3); `addMonths`
  below implements exactly that normalization.  For calendar-valid inputs
  (day within the month) a single day-overflow carry suffices.
* Go `float64` arithmetic in `calculateVesting` is embedded as exact rational
  arithmetic (`ℚ`), with Go's `int(...)` conversion as truncation toward zero
  and `math.Floor` as the floor; the spec describes the computation in these
  exact terms ("truncating integer division", "floor").
* Go `int` division/remainder truncate toward zero: `Int.tdiv` / `Int.tmod`.
* The result cache map `map[string]VestingResult` is embedded as a function
  `String → Option VestingResult`; `error` returns are `Option String` /
  `Except String` carrying the `fmt.Errorf` message text.
-/

namespace Vesting

/-- A calendar date (year, month, day), the relevant content of a midnight-UTC
Go `time.Time`. -/
structure Date where
  y : Int
  m : Int
  d : Int
deriving DecidableEq, Repr

/-- Chronological strict order on dates, Go's `t.Before(u)` for midnight
dates: lexicographic on (year, month, day). -/
def Date.before (a b : Date) : Bool :=
  a.y < b.y || (a.y == b.y && (a.m < b.m || (a.m == b.m && a.d < b.d)))

/-- Non-strict chronological order: `¬ b.before a`. -/
def Date.le (a b : Date) : Bool := !(Date.before b a)

/-- Leap-year rule of the proleptic Gregorian calendar, as Go's `time`
package uses it. -/
def isLeapYear (y : Int) : Bool := y % 4 == 0 && (y % 100 != 0 || y % 400 == 0)

/-- Number of days in month `m` of year `y` (for `1 ≤ m ≤ 12`). -/
def daysInMonth (y m : Int) : Int :=
  if m = 2 then (if isLeapYear y then 29 else 28)
  else if m = 4 ∨ m = 6 ∨ m = 9 ∨ m = 11 then 30
  else 31

/-- A calendar-valid date: month in range and day within the month. -/
def ValidDate (t : Date) : Prop :=
  1 ≤ t.m ∧ t.m ≤ 12 ∧ 1 ≤ t.d ∧ t.d ≤ daysInMonth t.y t.m

instance (t : Date) : Decidable (ValidDate t) := by
  unfold ValidDate; infer_instance

/-- Carry an overflowing day-of-month into the next month, as Go's
`time.Date` normalization does.  For a day value at most 31 (every
calendar-valid date) one carry step suffices, since every month has at
least 28 days. -/
def normDay (y m d : Int) : Date :=
  if d > daysInMonth y m then
    if m = 12 then ⟨y + 1, 1, d - daysInMonth y m⟩
    else ⟨y, m + 1, d - daysInMonth y m⟩
  else ⟨y, m, d⟩

/-- Go `addMonths(t, months) = t.AddDate(0, months, 0)`
(`vesting_service.go:165-167`): add the months, normalize the month into
`1..12` carrying whole years (floored division, as Go's `norm`; for the
positive divisor 12 `Int` euclidean `/` and `%` coincide with floored
division), then let an overflowing day roll forward. -/
def addMonths (t : Date) (months : Int) : Date :=
  normDay (t.y + (t.m + months - 1) / 12) ((t.m + months - 1) % 12 + 1) t.d

/-- Linearized month index `12*y + m`; each `addMonths · 1` step strictly
increases it, which bounds the iteration count of `monthsBetween`. -/
def monthIdx (t : Date) : Int := 12 * t.y + t.m

/-- Fuel that provably dominates the number of loop iterations of Go's
`monthsBetween` (`mbAux_fuel_irrel` below shows any larger fuel computes
the same value, so the fuel is an artifact of totality, not semantics). -/
def mbFuel (s e : Date) : Nat := (monthIdx e - monthIdx s + 1).toNat

/-- The loop of Go `monthsBetween` (`vesting_service.go:145-163`):
`for start.Before(end) { start = start.AddDate(0, 1, 0); months++ }`.
(The `month`/`year` locals of the Go loop body are dead and omitted.) -/
def mbAux : Nat → Date → Date → Nat
  | 0, _, _ => 0
  | fuel + 1, s, e => if s.before e then mbAux fuel (addMonths s 1) e + 1 else 0

/-- Go `monthsBetween(start, end)` (`vesting_service.go:145-163`). -/
def monthsBetween (s e : Date) : Nat := mbAux (mbFuel s e) s e

/-- `models.go:15-19`. -/
structure VestingSchedule where
  cliffMonths : Int
  vestingMonths : Int
  vestingType : String
deriving DecidableEq, Repr

/-- `models.go:7-13`. -/
structure Employee where
  id : String
  name : String
  startDate : Date
  totalUnits : Int
  schedule : VestingSchedule
deriving DecidableEq, Repr

/-- `models.go:21-27`.  The Go zero `time.Time` left in `NextVestDate` when
fully vested is modelled as `none`. -/
structure VestingResult where
  employeeID : String
  vestedUnits : Int
  unvestedUnits : Int
  nextVestDate : Option Date
  asOfDate : Date
deriving DecidableEq, Repr

/-- The backloaded tranche table `[]float64{0.1, 0.2, 0.3, 0.4}`
(`vesting_service.go:90`), as exact rationals. -/
def percentages : List ℚ := [1/10, 2/10, 3/10, 4/10]

/-- The `var vestedUnits int` computation of `calculateVesting`
(`vesting_service.go:73-105`), as a function of the employee and
`monthsEmployed`, reached only past the cliff check.
Faithfulness notes:
* the linear branch's `int(unitsPerMonth * float64(monthsVested))` is the
  exact rational `totalUnits * monthsVested / cap` truncated toward zero,
  i.e. `Int.tdiv` of the product (when `cap = 0` Go produces `Inf`/`NaN`
  float garbage; the embedding returns 0 there — that case is unreachable
  for validated schedules, see `ValidateSchedule` and claim C10);
* the backloaded loop `for i := 0; i <= yearsVested && i < len(percentages)`
  sums the first `min (yearsVested+1) 4` tranches, i.e. `List.take` of the
  4-element table (`yearsVested ≥ 0` in this branch since the cliff check
  passed); Go `/` and `%` on ints truncate toward zero: `tdiv`/`tmod`;
* `int(math.Floor(x))` on an in-range float is the floor `⌊x⌋`.
Limits of the exact-rational idealization: it agrees with the float64
program only where rounding does not move the truncation across an integer
boundary.  That fails in two known ways: the linear computation
`(u/cap)*cap` can undershoot (e.g. `int((61/7.0)*7.0) = 60`, one unit short
of full vesting), and the float tranche sums drift from the exact
percentages once `totalUnits` reaches the order of `2^52` (e.g.
`1e17 * (0.1+0.2)` floors to 30000000000000004, not 3e16).  Statements
whose truth depends on those low-order bits are therefore not provable from
this definition and are settled against the program directly (claims C3 and
C4); the concrete evaluations proved below (claims C2 and C5) were checked
to coincide with the float64 values. -/
def vestedUnitsCalc (employee : Employee) (monthsEmployed : Int) : Int :=
  if employee.schedule.vestingType = "linear" then
    let monthsVested0 := monthsEmployed - employee.schedule.cliffMonths
    let vestingMonthsAfterCliff :=
      employee.schedule.vestingMonths - employee.schedule.cliffMonths
    let monthsVested :=
      if monthsVested0 > vestingMonthsAfterCliff then vestingMonthsAfterCliff
      else monthsVested0
    (employee.totalUnits * monthsVested).tdiv vestingMonthsAfterCliff
  else if employee.schedule.vestingType = "backloaded" then
    let yearsVested :=
      (monthsEmployed - employee.schedule.cliffMonths).tdiv 12
    let totalPercent : ℚ := (percentages.take (yearsVested + 1).toNat).sum
    let monthsInCurrentYear :=
      (monthsEmployed - employee.schedule.cliffMonths).tmod 12
    let totalPercent :=
      if yearsVested < 4 ∧ monthsInCurrentYear > 0 then
        totalPercent +
          percentages.getD yearsVested.toNat 0 *
            ((monthsInCurrentYear : ℚ) / 12)
      else totalPercent
    Int.floor ((employee.totalUnits : ℚ) * totalPercent)
  else 0

/-- Go `calculateVesting` (`vesting_service.go:55-125`). -/
def calculateVesting (employee : Employee) (asOfDate : Date) :
    Except String VestingResult :=
  if employee.totalUnits ≤ 0 then
    Except.error ("invalid total units: " ++ toString employee.totalUnits)
  else
    let monthsEmployed : Int := (monthsBetween employee.startDate asOfDate : Int)
    if monthsEmployed < employee.schedule.cliffMonths then
      Except.ok { employeeID := employee.id
                  vestedUnits := 0
                  unvestedUnits := employee.totalUnits
                  nextVestDate := some (addMonths employee.startDate
                    employee.schedule.cliffMonths)
                  asOfDate := asOfDate }
    else
      let vestedUnits : Int := vestedUnitsCalc employee monthsEmployed
      let nextVestDate : Option Date :=
        if vestedUnits < employee.totalUnits then some (addMonths asOfDate 1)
        else none
      Except.ok { employeeID := employee.id
                  vestedUnits := vestedUnits
                  unvestedUnits := employee.totalUnits - vestedUnits
                  nextVestDate := nextVestDate
                  asOfDate := asOfDate }

/-- Go `ValidateSchedule` (`vesting_service.go:185-196`). -/
def ValidateSchedule (schedule : VestingSchedule) : Except String Unit :=
  if schedule.cliffMonths < 0 then
    Except.error "cliff months cannot be negative"
  else if schedule.vestingMonths ≤ schedule.cliffMonths then
    Except.error "total vesting months must be greater than cliff months"
  else if schedule.vestingType ≠ "linear" ∧ schedule.vestingType ≠ "backloaded" then
    Except.error ("invalid vesting type: " ++ schedule.vestingType)
  else
    Except.ok ()

/-- The backing map of `VestingCache` (`models.go:29-37`), embedded as a
lookup function. -/
def CacheMap := String → Option VestingResult

/-- Go `NewVestingCache` (`models.go:33-37`): the empty map. -/
def NewVestingCache : CacheMap := fun _ => none

/-- A map store `results[id] = r`. -/
def cacheStore (c : CacheMap) (id : String) (r : VestingResult) : CacheMap :=
  fun k => if k = id then some r else c k

/-- Go `GetResult` (`vesting_service.go:128-134`): `result, exists :=
vs.cache.results[employeeID]` (taken under `vs.mu`; the lock matters only
for the access model of claim C1, not for the returned value). -/
def GetResult (c : CacheMap) (employeeID : String) : Option VestingResult :=
  c employeeID

/-- Go `ProcessBatch` (`vesting_service.go:22-52`), sequentialized: one
worker per employee runs `calculateVesting`; a success stores the result
into the cache map (`vs.cache.results[employee.ID] = result`, line 37), a
failure sends its error to the `errors` channel.  After the join the first
collected error, if any, is returned; the Go channel receives errors from
failing workers in a nondeterministic order, modelled here as list order. -/
def processBatchGo (c : CacheMap) (firstErr : Option String) :
    List Employee → Date → CacheMap × Option String
  | [], _ => (c, firstErr)
  | e :: rest, asOf =>
    match calculateVesting e asOf with
    | Except.ok r => processBatchGo (cacheStore c e.id r) firstErr rest asOf
    | Except.error err => processBatchGo c (firstErr <|> some err) rest asOf

/-- Entry point of Go `ProcessBatch` on a service whose cache map is `c`:
returns the cache map after the batch and the returned error (`none` for a
`nil` return). -/
def ProcessBatch (c : CacheMap) (employees : List Employee) (asOfDate : Date) :
    CacheMap × Option String :=
  processBatchGo c none employees asOfDate

/-- Go `GetBatchResults` (`vesting_service.go:170-182`): walk the requested
ids in order, fail at the first id with no cached outcome, else return the
accumulated fresh map. -/
def getBatchResultsGo (c : CacheMap) (acc : CacheMap) :
    List String → Except String CacheMap
  | [] => Except.ok acc
  | id :: rest =>
    match GetResult c id with
    | some r => getBatchResultsGo c (cacheStore acc id r) rest
    | none => Except.error ("result not found for employee " ++ id)

/-- Entry point of Go `GetBatchResults`: starts from the empty result map
(`results := make(map[string]VestingResult)`). -/
def GetBatchResults (c : CacheMap) (employeeIDs : List String) :
    Except String CacheMap :=
  getBatchResultsGo c NewVestingCache employeeIDs

/-- A cache-backing-map operation, for the lock-discipline model of
claim C1. -/
inductive CacheOp where
  | read (key : String)
  | write (key : String)
deriving DecidableEq, Repr

/-- One access to the cache's backing map `vs.cache.results`, tagged with
whether the service mutex `vs.mu` is held at that source location. -/
structure CacheAccess where
  op : CacheOp
  underLock : Bool
deriving DecidableEq, Repr

/-- The backing-map accesses performed by one `ProcessBatch` call
(`vesting_service.go:26-39`): each worker whose calculation succeeds writes
`vs.cache.results[employee.ID]` at line 37; no `vs.mu.Lock()` appears
anywhere in `ProcessBatch` or its goroutine, so these writes happen with
the lock not held. -/
def processBatchAccesses (employees : List Employee) (asOfDate : Date) :
    List CacheAccess :=
  employees.filterMap fun e =>
    match calculateVesting e asOfDate with
    | Except.ok _ => some { op := CacheOp.write e.id, underLock := false }
    | Except.error _ => none

/-- The backing-map access of `GetResult` (`vesting_service.go:128-134`):
one read of `vs.cache.results[employeeID]`, performed between
`vs.mu.Lock()` and the deferred `vs.mu.Unlock()`. -/
def getResultAccesses (employeeID : String) : List CacheAccess :=
  [{ op := CacheOp.read employeeID, underLock := true }]

/-- The tranche table as the spec states it: 10%, 20%, 30%, 40% for indices
0..3, nothing beyond. -/
def tranchePercent : Nat → ℚ
  | 0 => 1/10
  | 1 => 2/10
  | 2 => 3/10
  | 3 => 4/10
  | _ => 0

/-- Claim C3's description of the backloaded total percentage, written from
the claim's words: with `fullYears = elapsed / 12` and
`remainderMonths = elapsed % 12`, sum the tranche percentages over indices
0 through `fullYears` inclusive (capped at index 3), and add
`percentages[fullYears] * remainderMonths / 12` exactly when
`fullYears < 4` and `remainderMonths > 0`. -/
def backloadedSpecPercent (elapsed : Int) : ℚ :=
  let fullYears := elapsed / 12
  let remainderMonths := elapsed % 12
  (Finset.range (min fullYears 3 + 1).toNat).sum tranchePercent +
    (if fullYears < 4 ∧ remainderMonths > 0 then
      tranchePercent fullYears.toNat * ((remainderMonths : ℚ) / 12)
    else 0)

theorem before_iff {a b : Date} :
    a.before b = true ↔
      (a.y < b.y ∨ (a.y = b.y ∧ (a.m < b.m ∨ (a.m = b.m ∧ a.d < b.d)))) := by
  simp [Date.before]

theorem le_iff {a b : Date} : a.le b = true ↔ ¬ b.before a = true := by
  simp [Date.le]

theorem monthIdx_normDay (y m d : Int) :
    monthIdx (normDay y m d) = 12 * y + m ∨
    monthIdx (normDay y m d) = 12 * y + m + 1 := by
  unfold normDay
  split
  · split
    · next hm => subst hm; right; simp only [monthIdx]; omega
    · right; simp only [monthIdx]; omega
  · left; simp only [monthIdx]

theorem monthIdx_addMonths_one (t : Date) :
    monthIdx (addMonths t 1) = monthIdx t + 1 ∨
    monthIdx (addMonths t 1) = monthIdx t + 2 := by
  unfold addMonths
  rcases monthIdx_normDay (t.y + (t.m + 1 - 1) / 12) ((t.m + 1 - 1) % 12 + 1)
      t.d with h | h <;> rw [h] <;> simp only [monthIdx] <;> omega

theorem monthIdx_le_of_before {a b : Date} (ha : 1 ≤ a.m) (ha' : a.m ≤ 12)
    (hb : 1 ≤ b.m) (hb' : b.m ≤ 12) (h : a.before b = true) :
    monthIdx a ≤ monthIdx b := by
  rw [before_iff] at h
  simp only [monthIdx]
  omega

theorem daysInMonth_lb (y m : Int) : 28 ≤ daysInMonth y m := by
  unfold daysInMonth
  by_cases h2 : m = 2
  · simp only [if_pos h2]; by_cases hl : isLeapYear y = true <;> simp [hl]
  · simp only [if_neg h2]
    by_cases h30 : m = 4 ∨ m = 6 ∨ m = 9 ∨ m = 11 <;> simp [h30]

theorem daysInMonth_ub (y m : Int) : daysInMonth y m ≤ 31 := by
  unfold daysInMonth
  by_cases h2 : m = 2
  · simp only [if_pos h2]; by_cases hl : isLeapYear y = true <;> simp [hl]
  · simp only [if_neg h2]
    by_cases h30 : m = 4 ∨ m = 6 ∨ m = 9 ∨ m = 11 <;> simp [h30]

theorem validDate_normDay {y m d : Int} (hm1 : 1 ≤ m) (hm2 : m ≤ 12)
    (hd1 : 1 ≤ d) (hd2 : d ≤ 31) : ValidDate (normDay y m d) := by
  have l1 := daysInMonth_lb y m
  unfold normDay
  split
  · next hc =>
    split
    · next hm =>
      subst hm
      have l2 := daysInMonth_lb (y + 1) 1
      exact ⟨by simp only; omega, by simp only; omega, by simp only; omega,
        by simp only; omega⟩
    · next hm =>
      have l2 := daysInMonth_lb y (m + 1)
      exact ⟨by simp only; omega, by simp only; omega, by simp only; omega,
        by simp only; omega⟩
  · next hc => exact ⟨by simp only; omega, by simp only; omega,
      by simp only; omega, by simp only; omega⟩

theorem validDate_addMonths {t : Date} (ht : ValidDate t) (n : Int) :
    ValidDate (addMonths t n) := by
  obtain ⟨hm1, hm2, hd1, hd2⟩ := ht
  have hub := daysInMonth_ub t.y t.m
  unfold addMonths
  exact validDate_normDay (by omega) (by omega) (by omega) (by omega)

theorem mbAux_of_not_before {s e : Date} (hb : ¬ s.before e = true) :
    ∀ f, mbAux f s e = 0
  | 0 => rfl
  | f + 1 => by simp [mbAux, hb]

theorem mbAux_fuel_irrel {e : Date} (he1 : 1 ≤ e.m) (he2 : e.m ≤ 12) :
    ∀ f1 f2 s, ValidDate s → mbFuel s e ≤ f1 → mbFuel s e ≤ f2 →
      mbAux f1 s e = mbAux f2 s e := by
  intro f1
  induction f1 using Nat.strong_induction_on with
  | _ f1 ih =>
    intro f2 s hs h1 h2
    by_cases hb : s.before e = true
    · have hmono := monthIdx_le_of_before hs.1 hs.2.1 he1 he2 hb
      have hst := monthIdx_addMonths_one s
      have hk1 : mbFuel s e = (monthIdx e - monthIdx s + 1).toNat := rfl
      have hk2 : mbFuel (addMonths s 1) e =
          (monthIdx e - monthIdx (addMonths s 1) + 1).toNat := rfl
      obtain ⟨a, rfl⟩ : ∃ a, f1 = a + 1 := ⟨f1 - 1, by omega⟩
      obtain ⟨b, rfl⟩ : ∃ b, f2 = b + 1 := ⟨f2 - 1, by omega⟩
      simp only [mbAux, if_pos hb]
      have hrec := ih a (by omega) b (addMonths s 1)
        (validDate_addMonths hs 1) (by omega) (by omega)
      omega
    · rw [mbAux_of_not_before hb, mbAux_of_not_before hb]

/-- Characterizing equation of `monthsBetween`, matching Go's loop: step once
while `start.Before(end)`, else 0. -/
theorem monthsBetween_eq {s e : Date} (hs : ValidDate s) (he1 : 1 ≤ e.m)
    (he2 : e.m ≤ 12) :
    monthsBetween s e =
      if s.before e then monthsBetween (addMonths s 1) e + 1 else 0 := by
  by_cases hb : s.before e = true
  · have hmono := monthIdx_le_of_before hs.1 hs.2.1 he1 he2 hb
    have hst := monthIdx_addMonths_one s
    have hk1 : mbFuel s e = (monthIdx e - monthIdx s + 1).toNat := rfl
    have hk2 : mbFuel (addMonths s 1) e =
        (monthIdx e - monthIdx (addMonths s 1) + 1).toNat := rfl
    obtain ⟨a, ha⟩ : ∃ a, mbFuel s e = a + 1 := ⟨mbFuel s e - 1, by omega⟩
    rw [if_pos hb]
    unfold monthsBetween
    rw [ha]
    simp only [mbAux, if_pos hb]
    have := mbAux_fuel_irrel he1 he2 a (mbFuel (addMonths s 1) e)
      (addMonths s 1) (validDate_addMonths hs 1) (by omega) (le_refl _)
    omega
  · rw [if_neg hb]
    unfold monthsBetween
    exact mbAux_of_not_before hb _

theorem monthsBetween_self (d : Date) : monthsBetween d d = 0 := by
  have hb : ¬ d.before d = true := by rw [before_iff]; omega
  unfold monthsBetween
  exact mbAux_of_not_before hb _

theorem monthsBetween_of_ge {s e : Date} (h : e.le s = true) :
    monthsBetween s e = 0 := by
  have hb : ¬ s.before e = true := le_iff.mp h
  unfold monthsBetween
  exact mbAux_of_not_before hb _

theorem before_of_before_of_le {a b c : Date} (h1 : a.before b = true)
    (h2 : b.le c = true) : a.before c = true := by
  rw [le_iff] at h2
  rw [before_iff] at h1 h2 ⊢
  omega

theorem monthsBetween_mono_aux {e1 e2 : Date}
    (he1a : 1 ≤ e1.m) (he1b : e1.m ≤ 12) (he2a : 1 ≤ e2.m) (he2b : e2.m ≤ 12)
    (hle : e1.le e2 = true) :
    ∀ n s, ValidDate s → mbFuel s e2 ≤ n →
      monthsBetween s e1 ≤ monthsBetween s e2 := by
  intro n
  induction n with
  | zero =>
    intro s hs hf
    by_cases hb : s.before e2 = true
    · have hmono := monthIdx_le_of_before hs.1 hs.2.1 he2a he2b hb
      have hk1 : mbFuel s e2 = (monthIdx e2 - monthIdx s + 1).toNat := rfl
      omega
    · have hb1 : ¬ s.before e1 = true := fun h => hb (before_of_before_of_le h hle)
      rw [monthsBetween_eq hs he1a he1b, if_neg hb1]
      exact Nat.zero_le _
  | succ n ih =>
    intro s hs hf
    by_cases hb1 : s.before e1 = true
    · have hb2 : s.before e2 = true := before_of_before_of_le hb1 hle
      rw [monthsBetween_eq hs he1a he1b, monthsBetween_eq hs he2a he2b,
        if_pos hb1, if_pos hb2]
      have hmono := monthIdx_le_of_before hs.1 hs.2.1 he2a he2b hb2
      have hst := monthIdx_addMonths_one s
      have hk1 : mbFuel s e2 = (monthIdx e2 - monthIdx s + 1).toNat := rfl
      have hk2 : mbFuel (addMonths s 1) e2 =
          (monthIdx e2 - monthIdx (addMonths s 1) + 1).toNat := rfl
      have := ih (addMonths s 1) (validDate_addMonths hs 1) (by omega)
      omega
    · rw [monthsBetween_eq hs he1a he1b, if_neg hb1]
      exact Nat.zero_le _

/-- Monotonicity of `monthsBetween` in its end argument. -/
theorem monthsBetween_mono {s e1 e2 : Date} (hs : ValidDate s)
    (he1 : ValidDate e1) (he2 : ValidDate e2) (hle : e1.le e2 = true) :
    monthsBetween s e1 ≤ monthsBetween s e2 :=
  monthsBetween_mono_aux he1.1 he1.2.1 he2.1 he2.2.1 hle
    (mbFuel s e2) s hs (le_refl _)

theorem calculateVesting_cliff (e : Employee) (asOf : Date)
    (htu : 0 < e.totalUnits)
    (h : (monthsBetween e.startDate asOf : Int) < e.schedule.cliffMonths) :
    calculateVesting e asOf = Except.ok
      ⟨e.id, 0, e.totalUnits,
        some (addMonths e.startDate e.schedule.cliffMonths), asOf⟩ := by
  simp only [calculateVesting]
  rw [if_neg (by omega), if_pos h]

theorem calculateVesting_postCliff (e : Employee) (asOf : Date)
    (htu : 0 < e.totalUnits)
    (h : ¬ (monthsBetween e.startDate asOf : Int) < e.schedule.cliffMonths) :
    calculateVesting e asOf = Except.ok
      ⟨e.id, vestedUnitsCalc e (monthsBetween e.startDate asOf : Int),
        e.totalUnits - vestedUnitsCalc e (monthsBetween e.startDate asOf : Int),
        if vestedUnitsCalc e (monthsBetween e.startDate asOf : Int) <
            e.totalUnits then some (addMonths asOf 1) else none,
        asOf⟩ := by
  simp only [calculateVesting]
  rw [if_neg (by omega), if_neg h]

theorem calculateVesting_invalid (e : Employee) (asOf : Date)
    (htu : e.totalUnits ≤ 0) :
    calculateVesting e asOf =
      Except.error ("invalid total units: " ++ toString e.totalUnits) := by
  simp only [calculateVesting]
  rw [if_pos htu]

theorem vestedUnitsCalc_linear (e : Employee) (m : Int)
    (ht : e.schedule.vestingType = "linear") :
    vestedUnitsCalc e m =
      (e.totalUnits *
        (if m - e.schedule.cliffMonths >
            e.schedule.vestingMonths - e.schedule.cliffMonths
          then e.schedule.vestingMonths - e.schedule.cliffMonths
          else m - e.schedule.cliffMonths)).tdiv
        (e.schedule.vestingMonths - e.schedule.cliffMonths) := by
  simp only [vestedUnitsCalc, ht, if_true]

theorem vestedUnitsCalc_backloaded (e : Employee) (m : Int)
    (ht : e.schedule.vestingType = "backloaded") :
    vestedUnitsCalc e m =
      Int.floor ((e.totalUnits : ℚ) *
        (if (m - e.schedule.cliffMonths).tdiv 12 < 4 ∧
            (m - e.schedule.cliffMonths).tmod 12 > 0 then
          (percentages.take ((m - e.schedule.cliffMonths).tdiv 12 + 1).toNat).sum
            + percentages.getD ((m - e.schedule.cliffMonths).tdiv 12).toNat 0 *
              (((m - e.schedule.cliffMonths).tmod 12 : ℚ) / 12)
        else
          (percentages.take
            ((m - e.schedule.cliffMonths).tdiv 12 + 1).toNat).sum)) := by
  simp only [vestedUnitsCalc, ht, if_true]
  rw [if_neg (by decide : ¬ ("backloaded" = "linear"))]

theorem getD_percentages (n : Nat) : percentages.getD n 0 = tranchePercent n := by
  match n with
  | 0 => rfl
  | 1 => rfl
  | 2 => rfl
  | 3 => rfl
  | n + 4 => rfl

theorem take_sum_eq_spec (yv : Int) (hyv : 0 ≤ yv) :
    (percentages.take (yv + 1).toNat).sum =
      (Finset.range (min yv 3 + 1).toNat).sum tranchePercent := by
  rcases le_or_lt yv 3 with h | h
  · interval_cases yv
    · show (percentages.take 1).sum = ∑ x ∈ Finset.range 1, tranchePercent x
      norm_num [percentages, tranchePercent, Finset.sum_range_succ]
    · show (percentages.take 2).sum = ∑ x ∈ Finset.range 2, tranchePercent x
      norm_num [percentages, tranchePercent, Finset.sum_range_succ]
    · show (percentages.take 3).sum = ∑ x ∈ Finset.range 3, tranchePercent x
      norm_num [percentages, tranchePercent, Finset.sum_range_succ]
    · show (percentages.take 4).sum = ∑ x ∈ Finset.range 4, tranchePercent x
      norm_num [percentages, tranchePercent, Finset.sum_range_succ]
  · have h4 : percentages.length ≤ (yv + 1).toNat := by
      simp only [percentages, List.length]; omega
    rw [List.take_of_length_le h4]
    have hmin : min yv 3 = 3 := by omega
    rw [hmin]
    show percentages.sum = ∑ x ∈ Finset.range 4, tranchePercent x
    norm_num [percentages, tranchePercent, Finset.sum_range_succ]

/-- The backloaded branch computes exactly the percentage described by the
claim (`backloadedSpecPercent`), for a non-negative elapsed month count. -/
theorem vestedUnitsCalc_backloaded_spec (e : Employee) (m : Int)
    (ht : e.schedule.vestingType = "backloaded")
    (helapsed : 0 ≤ m - e.schedule.cliffMonths) :
    vestedUnitsCalc e m =
      Int.floor ((e.totalUnits : ℚ) *
        backloadedSpecPercent (m - e.schedule.cliffMonths)) := by
  rw [vestedUnitsCalc_backloaded e m ht]
  simp only [backloadedSpecPercent]
  set el := m - e.schedule.cliffMonths with hel
  have htd : el.tdiv 12 = el / 12 := Int.tdiv_eq_ediv helapsed (by decide)
  have htm : el.tmod 12 = el % 12 := Int.tmod_eq_emod helapsed (by decide)
  have hyv : 0 ≤ el / 12 := Int.ediv_nonneg helapsed (by decide)
  rw [htd, htm, take_sum_eq_spec _ hyv, getD_percentages]
  by_cases hc : el / 12 < 4 ∧ el % 12 > 0
  · rw [if_pos hc, if_pos hc]
  · rw [if_neg hc, if_neg hc, add_zero]

theorem processBatchGo_snd_none (d : Date) :
    ∀ (es : List Employee) (c : CacheMap) (acc : Option String),
      (processBatchGo c acc es d).2 = none ↔
        (acc = none ∧ ∀ e ∈ es, ∃ r, calculateVesting e d = Except.ok r) := by
  intro es
  induction es with
  | nil => intro c acc; simp [processBatchGo]
  | cons e rest ih =>
    intro c acc
    simp only [processBatchGo]
    cases hcv : calculateVesting e d with
    | ok r =>
      rw [ih]
      simp only [List.mem_cons]
      constructor
      · rintro ⟨hacc, hall⟩
        exact ⟨hacc, fun e' he' => he'.elim (fun h => h ▸ ⟨r, hcv⟩) (hall e')⟩
      · rintro ⟨hacc, hall⟩
        exact ⟨hacc, fun e' he' => hall e' (Or.inr he')⟩
    | error err =>
      rw [ih]
      simp only [List.mem_cons]
      constructor
      · rintro ⟨hacc, -⟩
        cases acc <;> simp_all
      · rintro ⟨-, hall⟩
        obtain ⟨r, hr⟩ := hall e (Or.inl rfl)
        rw [hcv] at hr
        cases hr

theorem processBatchGo_snd_some (d : Date) :
    ∀ (es : List Employee) (c : CacheMap) (acc : Option String) (err : String),
      (processBatchGo c acc es d).2 = some err →
        acc = some err ∨ ∃ e ∈ es, calculateVesting e d = Except.error err := by
  intro es
  induction es with
  | nil =>
    intro c acc err h
    exact Or.inl h
  | cons e rest ih =>
    intro c acc err h
    simp only [processBatchGo] at h
    cases hcv : calculateVesting e d with
    | ok r =>
      rw [hcv] at h
      rcases ih _ _ _ h with h' | ⟨e', he', hcv'⟩
      · exact Or.inl h'
      · exact Or.inr ⟨e', List.mem_cons_of_mem _ he', hcv'⟩
    | error msg =>
      rw [hcv] at h
      rcases ih _ _ _ h with h' | ⟨e', he', hcv'⟩
      · cases acc with
        | some a => exact Or.inl h'
        | none =>
          simp only [Option.none_orElse] at h'
          obtain rfl : msg = err := by injection h'
          exact Or.inr ⟨e, List.mem_cons_self _ _, hcv⟩
      · exact Or.inr ⟨e', List.mem_cons_of_mem _ he', hcv'⟩

theorem processBatchGo_fst_not_mem (d : Date) :
    ∀ (es : List Employee) (c : CacheMap) (acc : Option String) (id : String),
      id ∉ es.map Employee.id → (processBatchGo c acc es d).1 id = c id := by
  intro es
  induction es with
  | nil => intros; rfl
  | cons e rest ih =>
    intro c acc id hid
    simp only [List.map_cons, List.mem_cons, not_or] at hid
    simp only [processBatchGo]
    cases hcv : calculateVesting e d with
    | ok r =>
      rw [ih _ _ _ hid.2]
      simp only [cacheStore]
      rw [if_neg hid.1]
    | error err => exact ih _ _ _ hid.2

theorem processBatchGo_fst_ok (d : Date) :
    ∀ (es : List Employee), (es.map Employee.id).Nodup →
      ∀ (c : CacheMap) (acc : Option String), ∀ e ∈ es, ∀ r,
        calculateVesting e d = Except.ok r →
          (processBatchGo c acc es d).1 e.id = some r := by
  intro es
  induction es with
  | nil => intro _ c acc e he; cases he
  | cons e0 rest ih =>
    intro hnd c acc e he r hr
    simp only [List.map_cons, List.nodup_cons] at hnd
    rcases List.mem_cons.mp he with rfl | he'
    · simp only [processBatchGo]
      rw [hr, processBatchGo_fst_not_mem d rest _ _ _ hnd.1]
      simp [cacheStore]
    · simp only [processBatchGo]
      cases hcv : calculateVesting e0 d with
      | ok r0 => exact ih hnd.2 _ _ e he' r hr
      | error err => exact ih hnd.2 _ _ e he' r hr

theorem processBatchGo_fst_err (d : Date) :
    ∀ (es : List Employee), (es.map Employee.id).Nodup →
      ∀ (c : CacheMap) (acc : Option String), ∀ e ∈ es, ∀ msg,
        calculateVesting e d = Except.error msg →
          (processBatchGo c acc es d).1 e.id = c e.id := by
  intro es
  induction es with
  | nil => intro _ c acc e he; cases he
  | cons e0 rest ih =>
    intro hnd c acc e he msg hmsg
    simp only [List.map_cons, List.nodup_cons] at hnd
    rcases List.mem_cons.mp he with rfl | he'
    · simp only [processBatchGo]
      rw [hmsg]
      exact processBatchGo_fst_not_mem d rest _ _ _ hnd.1
    · simp only [processBatchGo]
      cases hcv : calculateVesting e0 d with
      | ok r0 =>
        rw [ih hnd.2 _ _ e he' msg hmsg]
        simp only [cacheStore]
        rw [if_neg ?_]
        intro hEq
        exact hnd.1 (hEq ▸ List.mem_map_of_mem Employee.id he')
      | error err => exact ih hnd.2 _ _ e he' msg hmsg

theorem getBatchResultsGo_err (c : CacheMap) :
    ∀ (ids : List String) (acc : CacheMap) (id0 : String),
      List.find? (fun i => (c i).isNone) ids = some id0 →
        getBatchResultsGo c acc ids =
          Except.error ("result not found for employee " ++ id0) := by
  intro ids
  induction ids with
  | nil => intro acc id0 h; cases h
  | cons id rest ih =>
    intro acc id0 h
    simp only [getBatchResultsGo, GetResult]
    cases hc : c id with
    | some r =>
      rw [List.find?_cons_of_neg] at h
      · exact ih _ _ h
      · simp [hc]
    | none =>
      rw [List.find?_cons_of_pos] at h
      · obtain rfl : id = id0 := by injection h
        rfl
      · simp [hc]

theorem getBatchResultsGo_ok (c : CacheMap) :
    ∀ (ids : List String) (acc : CacheMap),
      List.find? (fun i => (c i).isNone) ids = none →
        ∃ m, getBatchResultsGo c acc ids = Except.ok m ∧
          ∀ id, m id = if id ∈ ids then c id else acc id := by
  intro ids
  induction ids with
  | nil =>
    intro acc _
    refine ⟨acc, rfl, fun id => ?_⟩
    simp
  | cons id rest ih =>
    intro acc h
    cases hc : c id with
    | none =>
      rw [List.find?_cons_of_pos] at h
      · cases h
      · simp [hc]
    | some r =>
      rw [List.find?_cons_of_neg] at h
      · obtain ⟨m, hm, hval⟩ := ih (cacheStore acc id r) h
        refine ⟨m, ?_, fun id' => ?_⟩
        · simp only [getBatchResultsGo, GetResult, hc]
          exact hm
        · rw [hval id']
          by_cases hmem : id' ∈ rest
          · rw [if_pos hmem, if_pos (List.mem_cons_of_mem _ hmem)]
          · rw [if_neg hmem]
            simp only [cacheStore]
            by_cases heq : id' = id
            · subst heq
              rw [if_pos rfl, if_pos (List.mem_cons_self _ _), hc]
            · rw [if_neg heq, if_neg (by simp [heq, hmem])]
      · simp [hc]

/-- Claim C1 (code bug): the claim requires every access to the cache
backing map to happen under the service mutex, but the worker writes of
`ProcessBatch` (`vesting_service.go:37`) bypass `vs.mu`: a concrete batch of
one valid employee produces a backing-map write with the lock not held,
while the `GetResult` read is locked. -/
theorem c1_processBatch_write_without_lock :
    processBatchAccesses
        [⟨"emp1", "Worker One", ⟨2021, 1, 1⟩, 1000, ⟨12, 48, "linear"⟩⟩]
        ⟨2023, 1, 1⟩ =
      [{ op := CacheOp.write "emp1", underLock := false }] ∧
    (∃ a ∈ processBatchAccesses
        [⟨"emp1", "Worker One", ⟨2021, 1, 1⟩, 1000, ⟨12, 48, "linear"⟩⟩]
        ⟨2023, 1, 1⟩, a.underLock = false) ∧
    (∀ a ∈ getResultAccesses "emp1", a.underLock = true) := by
  refine ⟨by decide, by decide, by decide⟩

/-- Claim C2 (code bug): for the backloaded employee with start 2021-01-01,
cliff 12, vesting 48, 40000 units, at as-of 2023-01-01 (exactly one full
year past the cliff) the claim and the repository test expect 10% = 4000
vested, but the loop `for i := 0; i <= yearsVested && i < len(percentages)`
sums tranches 0..1 (10%+20%), so the code returns 12000. -/
theorem c2_backloaded_exact_year_returns_12000 :
    calculateVesting
        ⟨"back1", "Year 1 Employee", ⟨2021, 1, 1⟩, 40000, ⟨12, 48, "backloaded"⟩⟩
        ⟨2023, 1, 1⟩ =
      Except.ok ⟨"back1", 12000, 28000, some ⟨2023, 2, 1⟩, ⟨2023, 1, 1⟩⟩ := by
  have hsp : backloadedSpecPercent 12 = 3/10 := by
    show (Finset.range (min ((12 : Int)/12) 3 + 1).toNat).sum tranchePercent +
        (if (12 : Int)/12 < 4 ∧ (12 : Int) % 12 > 0 then
          tranchePercent ((12 : Int)/12).toNat *
            ((((12 : Int) % 12 : Int) : ℚ) / 12)
        else 0) = 3/10
    rw [if_neg (by decide)]
    show (Finset.range 2).sum tranchePercent + 0 = 3/10
    norm_num [tranchePercent, Finset.sum_range_succ]
  have hv := vestedUnitsCalc_backloaded_spec
    (⟨"back1", "Year 1 Employee", ⟨2021, 1, 1⟩, 40000,
      ⟨12, 48, "backloaded"⟩⟩ : Employee) 24 rfl (by decide)
  dsimp only at hv
  rw [show (24 : Int) - 12 = 12 by decide, hsp] at hv
  rw [show Int.floor (((40000 : Int) : ℚ) * (3/10)) = (12000 : Int) by norm_num]
    at hv
  have h := calculateVesting_postCliff
    (⟨"back1", "Year 1 Employee", ⟨2021, 1, 1⟩, 40000,
      ⟨12, 48, "backloaded"⟩⟩ : Employee) ⟨2023, 1, 1⟩ (by decide) (by decide)
  rw [h]
  dsimp only
  rw [show ((monthsBetween ⟨2021, 1, 1⟩ ⟨2023, 1, 1⟩ : Nat) : Int) = 24
    by decide, hv]
  rfl

/-- Claim C5 (code bug): the claim asserts `0 ≤ vested ≤ totalUnits` and
`unvested = totalUnits - vested` for every employee with a (data-model
valid) schedule, but for a backloaded employee 37 months past the cliff the
buggy extra tranche makes `totalPercent = 100% + 40%/12 > 1`, so the code
vests 41333 of 40000 units and reports unvested -1333. -/
theorem c5_backloaded_overvest :
    ValidateSchedule ⟨12, 48, "backloaded"⟩ = Except.ok () ∧
    calculateVesting
        ⟨"over1", "Overvest Employee", ⟨2021, 1, 1⟩, 40000,
          ⟨12, 48, "backloaded"⟩⟩ ⟨2025, 2, 1⟩ =
      Except.ok ⟨"over1", 41333, -1333, none, ⟨2025, 2, 1⟩⟩ := by
  refine ⟨rfl, ?_⟩
  have hsp : backloadedSpecPercent 37 = 31/30 := by
    show (Finset.range (min ((37 : Int)/12) 3 + 1).toNat).sum tranchePercent +
        (if (37 : Int)/12 < 4 ∧ (37 : Int) % 12 > 0 then
          tranchePercent ((37 : Int)/12).toNat *
            ((((37 : Int) % 12 : Int) : ℚ) / 12)
        else 0) = 31/30
    rw [if_pos (by decide)]
    show (Finset.range 4).sum tranchePercent +
        tranchePercent 3 * (((1 : Int) : ℚ) / 12) = 31/30
    norm_num [tranchePercent, Finset.sum_range_succ]
  have hv := vestedUnitsCalc_backloaded_spec
    (⟨"over1", "Overvest Employee", ⟨2021, 1, 1⟩, 40000,
      ⟨12, 48, "backloaded"⟩⟩ : Employee) 49 rfl (by decide)
  dsimp only at hv
  rw [show (49 : Int) - 12 = 37 by decide, hsp] at hv
  rw [show Int.floor (((40000 : Int) : ℚ) * (31/30)) = (41333 : Int) by norm_num]
    at hv
  have h := calculateVesting_postCliff
    (⟨"over1", "Overvest Employee", ⟨2021, 1, 1⟩, 40000,
      ⟨12, 48, "backloaded"⟩⟩ : Employee) ⟨2025, 2, 1⟩ (by decide) (by decide)
  rw [h]
  dsimp only
  rw [show ((monthsBetween ⟨2021, 1, 1⟩ ⟨2025, 2, 1⟩ : Nat) : Int) = 49
    by decide, hv]
  rfl

/-- Claim C6: an employee still inside the cliff period (any policy tag)
gets `vested = 0`, `unvested = totalUnits` and
`nextVestDate = addMonths(startDate, cliffMonths)`, independent of the
as-of date. -/
theorem c6_cliff_rule (e : Employee) (asOf : Date) (htu : 0 < e.totalUnits)
    (h : (monthsBetween e.startDate asOf : Int) < e.schedule.cliffMonths) :
    calculateVesting e asOf = Except.ok
      ⟨e.id, 0, e.totalUnits,
        some (addMonths e.startDate e.schedule.cliffMonths), asOf⟩ :=
  calculateVesting_cliff e asOf htu h

theorem c6_cliff_rule_witness :
    calculateVesting
        ⟨"emp1", "Pre-cliff Employee", ⟨2023, 1, 1⟩, 48000,
          ⟨12, 48, "linear"⟩⟩ ⟨2023, 11, 1⟩ =
      Except.ok ⟨"emp1", 0, 48000, some ⟨2024, 1, 1⟩, ⟨2023, 11, 1⟩⟩ :=
  c6_cliff_rule _ _ (by decide) (by decide)

/-- Claim C7: `ProcessBatch` returns an error exactly when some employee
calculation fails, the returned error is one produced by a failing worker,
every successful employee has its outcome in the cache afterwards (no
rollback), and a failing employee leaves its cache entry untouched. -/
theorem c7_processBatch_semantics (employees : List Employee) (asOfDate : Date)
    (c : CacheMap) (hnd : (employees.map Employee.id).Nodup) :
    ((ProcessBatch c employees asOfDate).2 = none ↔
      ∀ e ∈ employees, ∃ r, calculateVesting e asOfDate = Except.ok r) ∧
    (∀ err, (ProcessBatch c employees asOfDate).2 = some err →
      ∃ e ∈ employees, calculateVesting e asOfDate = Except.error err) ∧
    (∀ e ∈ employees, ∀ r, calculateVesting e asOfDate = Except.ok r →
      (ProcessBatch c employees asOfDate).1 e.id = some r) ∧
    (∀ e ∈ employees, ∀ err, calculateVesting e asOfDate = Except.error err →
      (ProcessBatch c employees asOfDate).1 e.id = c e.id) := by
  refine ⟨?_, ?_, ?_, ?_⟩
  · unfold ProcessBatch
    rw [processBatchGo_snd_none]
    simp
  · intro err h
    rcases processBatchGo_snd_some asOfDate employees c none err h with h' | h'
    · cases h'
    · exact h'
  · intro e he r hr
    exact processBatchGo_fst_ok asOfDate employees hnd c none e he r hr
  · intro e he err herr
    exact processBatchGo_fst_err asOfDate employees hnd c none e he err herr

theorem c7_processBatch_semantics_witness :
    ((ProcessBatch NewVestingCache
        [⟨"w1", "Good Employee", ⟨2021, 1, 1⟩, 1200, ⟨12, 48, "linear"⟩⟩,
         ⟨"w2", "Bad Employee", ⟨2021, 1, 1⟩, 0, ⟨12, 48, "linear"⟩⟩]
        ⟨2023, 1, 1⟩).2 = none ↔
      ∀ e ∈ [⟨"w1", "Good Employee", ⟨2021, 1, 1⟩, 1200, ⟨12, 48, "linear"⟩⟩,
         (⟨"w2", "Bad Employee", ⟨2021, 1, 1⟩, 0, ⟨12, 48, "linear"⟩⟩ :
           Employee)],
        ∃ r, calculateVesting e ⟨2023, 1, 1⟩ = Except.ok r) ∧
    (∀ err, (ProcessBatch NewVestingCache
        [⟨"w1", "Good Employee", ⟨2021, 1, 1⟩, 1200, ⟨12, 48, "linear"⟩⟩,
         ⟨"w2", "Bad Employee", ⟨2021, 1, 1⟩, 0, ⟨12, 48, "linear"⟩⟩]
        ⟨2023, 1, 1⟩).2 = some err →
      ∃ e ∈ [⟨"w1", "Good Employee", ⟨2021, 1, 1⟩, 1200, ⟨12, 48, "linear"⟩⟩,
         (⟨"w2", "Bad Employee", ⟨2021, 1, 1⟩, 0, ⟨12, 48, "linear"⟩⟩ :
           Employee)],
        calculateVesting e ⟨2023, 1, 1⟩ = Except.error err) ∧
    (∀ e ∈ [⟨"w1", "Good Employee", ⟨2021, 1, 1⟩, 1200, ⟨12, 48, "linear"⟩⟩,
         (⟨"w2", "Bad Employee", ⟨2021, 1, 1⟩, 0, ⟨12, 48, "linear"⟩⟩ :
           Employee)],
      ∀ r, calculateVesting e ⟨2023, 1, 1⟩ = Except.ok r →
        (ProcessBatch NewVestingCache
          [⟨"w1", "Good Employee", ⟨2021, 1, 1⟩, 1200, ⟨12, 48, "linear"⟩⟩,
           ⟨"w2", "Bad Employee", ⟨2021, 1, 1⟩, 0, ⟨12, 48, "linear"⟩⟩]
          ⟨2023, 1, 1⟩).1 e.id = some r) ∧
    (∀ e ∈ [⟨"w1", "Good Employee", ⟨2021, 1, 1⟩, 1200, ⟨12, 48, "linear"⟩⟩,
         (⟨"w2", "Bad Employee", ⟨2021, 1, 1⟩, 0, ⟨12, 48, "linear"⟩⟩ :
           Employee)],
      ∀ err, calculateVesting e ⟨2023, 1, 1⟩ = Except.error err →
        (ProcessBatch NewVestingCache
          [⟨"w1", "Good Employee", ⟨2021, 1, 1⟩, 1200, ⟨12, 48, "linear"⟩⟩,
           ⟨"w2", "Bad Employee", ⟨2021, 1, 1⟩, 0, ⟨12, 48, "linear"⟩⟩]
          ⟨2023, 1, 1⟩).1 e.id = NewVestingCache e.id) :=
  c7_processBatch_semantics _ _ _ (by decide)

/-- Claim C8: `GetBatchResults` fails with the NotFound message naming the
first requested identifier with no cached outcome; when none is missing it
returns a map holding exactly the requested identifiers with their cached
outcomes. -/
theorem c8_getBatchResults_semantics (c : CacheMap) (employeeIDs : List String) :
    (∀ id0, List.find? (fun i => (c i).isNone) employeeIDs = some id0 →
      GetBatchResults c employeeIDs =
        Except.error ("result not found for employee " ++ id0)) ∧
    (List.find? (fun i => (c i).isNone) employeeIDs = none →
      ∃ m, GetBatchResults c employeeIDs = Except.ok m ∧
        (∀ id ∈ employeeIDs, m id = c id) ∧
        (∀ id, id ∉ employeeIDs → m id = none)) := by
  constructor
  · intro id0 h
    exact getBatchResultsGo_err c employeeIDs NewVestingCache id0 h
  · intro h
    obtain ⟨m, hm, hval⟩ := getBatchResultsGo_ok c employeeIDs NewVestingCache h
    refine ⟨m, hm, fun id hid => ?_, fun id hid => ?_⟩
    · rw [hval id, if_pos hid]
    · rw [hval id, if_neg hid]; rfl

theorem c8_getBatchResults_semantics_witness :
    GetBatchResults
        (cacheStore NewVestingCache "a" ⟨"a", 5, 5, none, ⟨2023, 1, 1⟩⟩)
        ["a", "b"] =
      Except.error ("result not found for employee " ++ "b") ∧
    ∃ m, GetBatchResults
        (cacheStore NewVestingCache "a" ⟨"a", 5, 5, none, ⟨2023, 1, 1⟩⟩)
        ["a"] = Except.ok m ∧
      (∀ id ∈ ["a"],
        m id = cacheStore NewVestingCache "a" ⟨"a", 5, 5, none, ⟨2023, 1, 1⟩⟩ id) ∧
      (∀ id, id ∉ ["a"] → m id = none) :=
  ⟨(c8_getBatchResults_semantics _ ["a", "b"]).1 "b" (by decide),
   (c8_getBatchResults_semantics _ ["a"]).2 (by decide)⟩

/-- Claim C9: `monthsBetween d d = 0`, more generally `monthsBetween` is 0
whenever the start is not before the end, and for a fixed start it is
monotone non-decreasing in the end date (on calendar-valid dates). -/
theorem c9_monthsBetween_props :
    (∀ d : Date, monthsBetween d d = 0) ∧
    (∀ s e : Date, e.le s = true → monthsBetween s e = 0) ∧
    (∀ s e1 e2 : Date, ValidDate s → ValidDate e1 → ValidDate e2 →
      e1.le e2 = true → monthsBetween s e1 ≤ monthsBetween s e2) :=
  ⟨monthsBetween_self, fun _ _ => monthsBetween_of_ge,
   fun _ _ _ hs h1 h2 hle => monthsBetween_mono hs h1 h2 hle⟩

theorem c9_monthsBetween_props_witness :
    monthsBetween ⟨2023, 1, 15⟩ ⟨2023, 1, 15⟩ = 0 ∧
    ((⟨2023, 1, 10⟩ : Date).le ⟨2023, 1, 15⟩ = true ∧
      monthsBetween ⟨2023, 1, 15⟩ ⟨2023, 1, 10⟩ = 0) ∧
    (ValidDate (⟨2021, 1, 1⟩ : Date) ∧ ValidDate (⟨2023, 1, 1⟩ : Date) ∧
      ValidDate (⟨2023, 6, 1⟩ : Date) ∧
      monthsBetween ⟨2021, 1, 1⟩ ⟨2023, 1, 1⟩ ≤
        monthsBetween ⟨2021, 1, 1⟩ ⟨2023, 6, 1⟩) :=
  ⟨c9_monthsBetween_props.1 _,
   ⟨by decide, c9_monthsBetween_props.2.1 _ _ (by decide)⟩,
   ⟨by decide, by decide, by decide,
    c9_monthsBetween_props.2.2 _ _ _ (by decide) (by decide) (by decide)
      (by decide)⟩⟩

/-- Claim C10: a schedule accepted by `ValidateSchedule` has
`vestingMonths > cliffMonths`, so the linear-policy divisor
`vestingMonthsAfterCliff = vestingMonths - cliffMonths` is strictly
positive and the division-by-zero case is unreachable. -/
theorem c10_divisor_positive (e : Employee)
    (hv : ValidateSchedule e.schedule = Except.ok ())
    (htu : 0 < e.totalUnits) :
    0 < e.schedule.vestingMonths - e.schedule.cliffMonths := by
  simp only [ValidateSchedule] at hv
  split_ifs at hv with h1 h2 h3
  all_goals first
    | exact Except.noConfusion hv
    | omega

theorem c10_divisor_positive_witness :
    (0 : Int) < 48 - 12 :=
  c10_divisor_positive
    ⟨"emp1", "Witness Employee", ⟨2021, 1, 1⟩, 1000, ⟨12, 48, "linear"⟩⟩
    rfl (by decide)

end Vesting
